import Mathlib

/-!
Verification of the produced-film detection subsystem of the
Lemon-Screenplay-Dashboard repository (`src/execution/check_produced_film.py`).

Strings are modelled as `List Char` and the ASCII fragments of Python's
`str.lower`, `str.strip`, `\w` and `\s` are used (`Char.toLower`,
`Char.isWhitespace`, alphanumeric-or-underscore).  Timestamps are modelled as
rational numbers measured in days (`datetime.now() - checked_at` becomes
`now - t`), and the float similarity threshold `0.85` is modelled as the
rational `17/20`.  Fallible external calls are modelled with `Except`.
-/

/-- Model of Python `\s` (ASCII whitespace). -/
def isWS (c : Char) : Bool := c.isWhitespace

/-- Model of Python `\w`: alphanumeric or underscore (ASCII fragment). -/
def isWordChar (c : Char) : Bool := c.isAlphanum || c = '_'

/-- Model of Python `str.strip()`: drop whitespace from both ends. -/
def stripWS (s : List Char) : List Char :=
  ((s.dropWhile isWS).reverse.dropWhile isWS).reverse

/-- Model of `re.sub(r'\s*\(\d{4}\)\s*$', '', s)` in `normalize_title`
(line 84): remove a trailing parenthesised four-digit year together with the
whitespace around it, if the string ends with one; otherwise leave the string
unchanged.  Implemented by scanning the reversed string. -/
def dropYearSuffix (s : List Char) : List Char :=
  match s.reverse.dropWhile isWS with
  | ')' :: d1 :: d2 :: d3 :: d4 :: '(' :: t =>
    if d1.isDigit && d2.isDigit && d3.isDigit && d4.isDigit then
      (t.dropWhile isWS).reverse
    else s
  | _ => s

/-- One alternative of `re.sub(r'^(the|a|an)\s+', '', s)` (line 90): if `s`
starts with the article `art` followed by at least one whitespace character,
return the remainder with that whitespace run removed (`\s+` is greedy);
otherwise `none`. -/
def tryStripArticle (art : List Char) (s : List Char) : Option (List Char) :=
  if art.isPrefixOf s then
    match s.drop art.length with
    | c :: rest => if isWS c then some (List.dropWhile isWS (c :: rest)) else none
    | [] => none
  else none

/-- Model of `re.sub(r'^(the|a|an)\s+', '', s)`: the regex alternation tries
`the`, then `a`, then `an` (with backtracking when the required whitespace is
missing), and removes at most one leading article. -/
def stripLeadingArticle (s : List Char) : List Char :=
  match tryStripArticle ['t', 'h', 'e'] s with
  | some r => r
  | none =>
    match tryStripArticle ['a'] s with
    | some r => r
    | none =>
      match tryStripArticle ['a', 'n'] s with
      | some r => r
      | none => s

/-- `s` begins with a leading article (`the`/`a`/`an`) followed by
whitespace, i.e. `stripLeadingArticle` would remove something. -/
def startsWithArticle (s : List Char) : Bool :=
  (tryStripArticle ['t', 'h', 'e'] s).isSome ||
    (tryStripArticle ['a'] s).isSome ||
    (tryStripArticle ['a', 'n'] s).isSome

/-- Maximal whitespace-free words of a string, in order. -/
def splitWords : List Char → List (List Char)
  | [] => []
  | c :: rest =>
    if isWS c then splitWords rest
    else
      match rest with
      | [] => [[c]]
      | c2 :: _ =>
        if isWS c2 then [c] :: splitWords rest
        else
          match splitWords rest with
          | [] => [[c]]
          | w :: ws => (c :: w) :: ws

/-- Join words with single spaces. -/
def joinWords : List (List Char) → List Char
  | [] => []
  | [w] => w
  | w :: ws => w ++ ' ' :: joinWords ws

/-- Model of `re.sub(r'\s+', ' ', s).strip()` (line 93): every maximal
whitespace run becomes a single space and the ends are stripped, which is the
same as joining the words of `s` with single spaces. -/
def collapseWS (s : List Char) : List Char := joinWords (splitWords s)

/-- Embedding of `normalize_title` (lines 67-95): lowercase and strip, drop a
trailing `"(YYYY)"` year, drop characters that are neither word characters
nor whitespace, drop one leading article, collapse whitespace.  The guard
`if not title` of line 77 is the empty-string test. -/
def normalize_title (title : List Char) : List Char :=
  if title = [] then []
  else
    collapseWS (stripLeadingArticle
      ((dropYearSuffix (stripWS (title.map Char.toLower))).filter
        (fun c => isWordChar c || isWS c)))

/-- Indices at which character `c` occurs in `b`, ascending: the entry
`b2j[c]` of `difflib.SequenceMatcher`. -/
def charPositions (b : List Char) (c : Char) : List Nat :=
  (List.range b.length).filter (fun j => b.getD j ' ' = c)

/-- `difflib.SequenceMatcher.__chain_b` with `isjunk=None` and
`autojunk=True` (the defaults used by `is_title_match`): when `b` has at
least 200 elements, characters occurring more than `len(b) // 100 + 1` times
are "popular" and removed from `b2j`. -/
def b2j (b : List Char) (c : Char) : List Nat :=
  let js := charPositions b c
  if 200 ≤ b.length && b.length / 100 + 1 < js.length then [] else js

/-- The running best block of `SequenceMatcher.find_longest_match`. -/
structure BestMatch where
  besti : Nat
  bestj : Nat
  bestsize : Nat
  deriving DecidableEq

/-- Inner loop of `find_longest_match` for one index `i` of `a`: walk the
occurrence positions `js` of `a[i]` in `b`, building the new `j2len` row and
updating the best block (strict improvement only, so earliest blocks win
ties). -/
def flmInner (i : Nat) (js : List Nat) (j2len : Nat → Nat) (st : BestMatch) :
    (Nat → Nat) × BestMatch :=
  js.foldl
    (fun p j =>
      let k := (if j = 0 then 0 else j2len (j - 1)) + 1
      let m := fun x => if x = j then k else p.1 x
      let st' : BestMatch := if p.2.bestsize < k then ⟨i + 1 - k, j + 1 - k, k⟩ else p.2
      (m, st'))
    ((fun _ => 0), st)

/-- Main dynamic-programming loop of `find_longest_match` over
`i ∈ [alo, ahi)`; the `j < blo` / `j ≥ bhi` guards of the Python loop become
a filter because the positions are ascending. -/
def flmMain (a b : List Char) (alo ahi blo bhi : Nat) : BestMatch :=
  ((List.range (ahi - alo)).foldl
    (fun (p : (Nat → Nat) × BestMatch) d =>
      let i := alo + d
      let js := (b2j b (a.getD i ' ')).filter (fun j => decide (blo ≤ j) && decide (j < bhi))
      flmInner i js p.1 p.2)
    ((fun _ => 0), ⟨alo, blo, 0⟩)).2

/-- Length of the longest common prefix of two lists (the extension loops of
`find_longest_match` walk while characters are equal). -/
def commonLen : List Char → List Char → Nat
  | x :: xs, y :: ys => if x = y then commonLen xs ys + 1 else 0
  | _, _ => 0

/-- The sublist `s[lo:hi]`. -/
def sliceList (s : List Char) (lo hi : Nat) : List Char := (s.drop lo).take (hi - lo)

/-- `SequenceMatcher.find_longest_match(alo, ahi, blo, bhi)` with no junk
characters (`isjunk=None`): the DP loop, then the block is extended to the
left and to the right while characters agree (the junk-extension loops are
no-ops because the junk set is empty). -/
def find_longest_match (a b : List Char) (alo ahi blo bhi : Nat) : Nat × Nat × Nat :=
  let st := flmMain a b alo ahi blo bhi
  let e := commonLen (sliceList a alo st.besti).reverse (sliceList b blo st.bestj).reverse
  let f := commonLen (sliceList a (st.besti + st.bestsize) ahi)
    (sliceList b (st.bestj + st.bestsize) bhi)
  (st.besti - e, st.bestj - e, st.bestsize + e + f)

/-- Total size of the matching blocks of `SequenceMatcher.get_matching_blocks`
on the window `[alo, ahi) × [blo, bhi)`: the recursive splitting around the
longest match.  The fuel argument only bounds the recursion depth; it is
called with fuel larger than `(ahi - alo) + (bhi - blo)`, which the splitting
strictly decreases, so the fuel is never exhausted. -/
def matchSum (a b : List Char) : Nat → Nat → Nat → Nat → Nat → Nat
  | 0, _, _, _, _ => 0
  | fuel + 1, alo, ahi, blo, bhi =>
    match find_longest_match a b alo ahi blo bhi with
    | (i, j, k) =>
      if k = 0 then 0
      else k + matchSum a b fuel alo i blo j + matchSum a b fuel (i + k) ahi (j + k) bhi

/-- `SequenceMatcher(None, a, b).ratio()`: `2 * M / T` where `M` is the total
matched size and `T` the total length, and `1` when both strings are empty.
The Python float arithmetic is modelled exactly in `ℚ`. -/
def sequenceMatcherRatio (a b : List Char) : ℚ :=
  if a.length + b.length = 0 then 1
  else (2 * (matchSum a b (a.length + b.length + 1) 0 a.length 0 b.length) : ℚ) /
    ((a.length : ℚ) + (b.length : ℚ))

/-- Python `sub in l` for strings: `sub` occurs as a contiguous substring. -/
def isSubOf (sub l : List Char) : Bool :=
  (List.range (l.length + 1)).any (fun i => sub.isPrefixOf (l.drop i))

/-- Embedding of `is_title_match` (lines 98-126): normalize both sides;
empty evidence → no match; exact equality, containment either way, then the
`SequenceMatcher` similarity ratio against the threshold (default `0.85`,
modelled as `17/20`). -/
def is_title_match (screenplay_title tmdb_title : List Char)
    (threshold : ℚ := 17 / 20) : Bool :=
  let norm1 := normalize_title screenplay_title
  let norm2 := normalize_title tmdb_title
  if norm1 = [] || norm2 = [] then false
  else if norm1 = norm2 then true
  else if isSubOf norm1 norm2 || isSubOf norm2 norm1 then true
  else decide (threshold ≤ sequenceMatcherRatio norm1 norm2)

/-- `confidence` values written by `check_if_produced`. -/
inductive Confidence
  | high
  | medium
  deriving DecidableEq

/-- A cache entry (`CacheEntry` of the spec; the dicts written at lines
288-296, 332-340 and 346-355).  `checked_at = none` models a missing or
empty (falsy) `checked_at` field; timestamps are rationals in days.  The
free-text `note` field of the medium-confidence entry is not modelled. -/
structure CacheEntry where
  is_produced : Bool
  tmdb_id : Option Nat
  title : Option (List Char)
  release_date : Option (List Char)
  status : Option (List Char)
  checked_at : Option ℚ
  confidence : Confidence
  deriving DecidableEq

/-- The `entries` mapping of the cache file, as an association list with
distinct keys (a Python dict).  The `version` / `last_updated` metadata
fields play no role in the decision logic and are not modelled. -/
abbrev Cache := List (List Char × CacheEntry)

/-- Dict lookup `entries.get(key)`. -/
def lookupEntry (key : List Char) : Cache → Option CacheEntry
  | [] => none
  | (k, v) :: rest => if k = key then some v else lookupEntry key rest

/-- Dict assignment `entries[key] = entry` (replace or append). -/
def cacheInsert (key : List Char) (v : CacheEntry) : Cache → Cache
  | [] => [(key, v)]
  | (k, v') :: rest =>
    if k = key then (key, v) :: rest else (k, v') :: cacheInsert key v rest

/-- `CACHE_EXPIRY_DAYS = 30` (line 45), in days. -/
def CACHE_EXPIRY_DAYS : ℚ := 30

/-- Embedding of `get_cached_result` (lines 162-188): look up the normalized
title; a missing key is a miss; an entry whose `checked_at` is present is
expired (treated as a miss) when `now - checked_at > 30` days; an entry with
a falsy `checked_at` skips the expiry check and is returned as-is. -/
def get_cached_result (title : List Char) (cache : Cache) (now : ℚ) :
    Option CacheEntry :=
  match lookupEntry (normalize_title title) cache with
  | none => none
  | some entry =>
    match entry.checked_at with
    | none => some entry
    | some t => if CACHE_EXPIRY_DAYS < now - t then none else some entry

/-- `PRODUCED_STATUSES` (line 48). -/
def PRODUCED_STATUSES : List (List Char) :=
  ["Released".data, "Post Production".data, "In Production".data]

/-- One candidate of the TMDB search response: `result.get("id")`,
`result.get("title", "")`, `result.get("release_date", "")`. -/
structure SearchResult where
  id : Nat
  title : List Char
  release_date : List Char
  deriving DecidableEq

/-- The body of a `GET /movie/<id>` response; only
`details.get("status", "Unknown")` is consumed. -/
structure MovieDetails where
  status : Option (List Char)

/-- Outcomes of the external TMDB endpoints for one run, after the retry
layer (`search_tmdb` / `get_movie_details` either return a value or raise):
`search` is the result of the search call for the queried title, `details`
maps a movie id to the result of its details call. -/
structure ExternalWorld where
  search : Except Unit (List SearchResult)
  details : Nat → Except Unit MovieDetails

/-- Model of Python `int(s)` on a string: optional surrounding whitespace,
optional sign, then a non-empty digit run (digit-group underscores of exotic
literals are not modelled). -/
def pythonInt (s : List Char) : Option Int :=
  let t := stripWS s
  let signAndDigits : Int × List Char :=
    match t with
    | '-' :: rest => (-1, rest)
    | '+' :: rest => (1, rest)
    | _ => (1, t)
  match signAndDigits with
  | (sign, ds) =>
    if ds ≠ [] ∧ ds.all Char.isDigit then
      some (sign * ds.foldl (fun acc c => acc * 10 + ((c.toNat : Int) - 48)) 0)
    else none

/-- `int(release_date.split("-")[0])` (line 314), or `none` when the leading
segment is not an integer (the `except (ValueError, IndexError)` of
line 318). -/
def parseReleaseYear (release_date : List Char) : Option Int :=
  pythonInt (release_date.takeWhile (fun c => c ≠ '-'))

/-- The year-context guard of lines 312-319: a candidate is skipped iff
`year_context` is truthy (present and nonzero), `release_date` is truthy
(non-empty), its leading segment parses as an integer, and that year is
strictly below the context year.  A parse failure falls through (`pass`). -/
def yearSkip (year_context : Option Int) (release_date : List Char) : Bool :=
  match year_context with
  | none => false
  | some y =>
    if y = 0 then false
    else if release_date = [] then false
    else
      match parseReleaseYear release_date with
      | none => false
      | some ry => decide (ry < y)

/-- The candidate loop of `check_if_produced` (lines 302-343): skip
candidates whose title does not match or that fall before the year context;
otherwise fetch details (counted as one network call), falling back on a
details failure to status `"Released"` when the candidate has a release date
and `"Unknown"` otherwise (lines 325-328); return the first candidate whose
status is in `PRODUCED_STATUSES` together with that status, and the number
of details calls made. -/
def scanCandidates (title : List Char) (year_context : Option Int)
    (world : ExternalWorld) :
    List SearchResult → Option (SearchResult × List Char) × Nat
  | [] => (none, 0)
  | r :: rest =>
    if is_title_match title r.title = false then
      scanCandidates title year_context world rest
    else if yearSkip year_context r.release_date then
      scanCandidates title year_context world rest
    else
      let status : List Char :=
        match world.details r.id with
        | .ok d => d.status.getD "Unknown".data
        | .error _ => if r.release_date = [] then "Unknown".data else "Released".data
      if status ∈ PRODUCED_STATUSES then (some (r, status), 1)
      else
        match scanCandidates title year_context world rest with
        | (res, n) => (res, n + 1)

/-- The shape of the `reason` string returned by `check_if_produced`: the
five textually distinct reason families (`"CACHED: ..."`,
`"ERROR: TMDB search failed - ..."`, `"NOT PRODUCED: No matching films
found"`, `"PRODUCED: ..."`, `"NOT PRODUCED: No matching produced films
(checked N results)"`). -/
inductive Reason
  | cached
  | searchError
  | noResultsNotProduced
  | produced
  | noMatchNotProduced (checkedCount : Nat)
  deriving DecidableEq

/-- The tuple returned by `check_if_produced`, together with the cache state
after the call and the number of external (search + details) calls made. -/
structure Decision where
  is_produced : Bool
  reason : Reason
  cache : Cache
  calls : Nat
  details : Option CacheEntry
  deriving DecidableEq

/-- Embedding of `check_if_produced` (lines 250-358).  A fresh cached entry
short-circuits with the stored verdict and no network call.  A search
failure is caught (lines 282-284) and yields `(False, "ERROR: ...", ...)`
with no cache write.  Zero results cache a high-confidence negative entry.
Otherwise the candidate loop runs; a produced candidate caches a
high-confidence positive entry, and exhausting the list caches a
medium-confidence negative entry. -/
def check_if_produced (title : List Char) (year_context : Option Int)
    (cache : Cache) (world : ExternalWorld) (now : ℚ) : Decision :=
  match get_cached_result title cache now with
  | some cached => ⟨cached.is_produced, .cached, cache, 0, some cached⟩
  | none =>
    match world.search with
    | .error _ => ⟨false, .searchError, cache, 1, none⟩
    | .ok results =>
      if results = [] then
        let entry : CacheEntry := ⟨false, none, none, none, none, some now, .high⟩
        ⟨false, .noResultsNotProduced,
          cacheInsert (normalize_title title) entry cache, 1, some entry⟩
      else
        match scanCandidates title year_context world results with
        | (some (r, status), n) =>
          let entry : CacheEntry :=
            ⟨true, some r.id, some r.title, some r.release_date, some status,
              some now, .high⟩
          ⟨true, .produced, cacheInsert (normalize_title title) entry cache,
            1 + n, some entry⟩
        | (none, n) =>
          let entry : CacheEntry := ⟨false, none, none, none, none, some now, .medium⟩
          ⟨false, .noMatchNotProduced results.length,
            cacheInsert (normalize_title title) entry cache, 1 + n, some entry⟩

/-- The override file `{force_analyze, force_skip}` (lines 151-159). -/
structure Overrides where
  force_analyze : List (List Char)
  force_skip : List (List Char)

/-- Embedding of `main` (lines 361-430): missing API key exits 2; then the
`force_analyze` list is scanned first (exit 0 on a normalized match), then
`force_skip` (exit 1); otherwise `check_if_produced` runs and a produced
verdict exits 1, a non-produced verdict (including the caught search-failure
case) exits 0.  Returns the exit code, the final cache and the number of
external calls.  (The `except` branch returning 2 at line 430 is
unreachable in this model because the modelled `check_if_produced` is total,
exactly as the Python function catches its search errors.) -/
def main_run (title : List Char) (year_context : Option Int) (hasApiKey : Bool)
    (overrides : Overrides) (cache : Cache) (world : ExternalWorld) (now : ℚ) :
    Nat × Cache × Nat :=
  if hasApiKey = false then (2, cache, 0)
  else
    let normalized := normalize_title title
    if overrides.force_analyze.any (fun t => normalize_title t = normalized) then
      (0, cache, 0)
    else if overrides.force_skip.any (fun t => normalize_title t = normalized) then
      (1, cache, 0)
    else
      let d := check_if_produced title year_context cache world now
      (if d.is_produced then 1 else 0, d.cache, d.calls)

/-- The exception classes that can escape one attempt of `search_tmdb` /
`get_movie_details`: the five classes listed in `RETRYABLE_EXCEPTIONS`
(lines 58-64) — note `httpx.HTTPStatusError` carries *any* HTTP status
raised by `raise_for_status()`, 4xx and 5xx alike — plus a catch-all for
exceptions outside that tuple. -/
inductive NetError
  | connectError
  | timeoutException
  | httpStatusError (code : Nat)
  | connectionError
  | timeoutError
  | otherError
  deriving DecidableEq

/-- `retry_if_exception_type(RETRYABLE_EXCEPTIONS)` (line 192): an exception
is retried iff it is an instance of one of the five listed classes.  Every
`HTTPStatusError` is retryable, whatever its status code. -/
def isRetryable : NetError → Bool
  | .otherError => false
  | _ => true

/-- `stop_after_attempt(3)` (line 193). -/
def STOP_AFTER_ATTEMPTS : Nat := 3

/-- One run of a `tenacity.retry`-decorated call: `attempt k` is the outcome
of the `(k+1)`-st attempt; `left` is the number of further attempts the stop
condition still allows.  A success returns; a retryable exception with
attempts left retries; a non-retryable exception, or an exception on the
last allowed attempt, is re-raised (`reraise=True`, line 196).  Returns the
outcome together with the number of attempts actually made. -/
def tenacityGo {α : Type} (attempt : Nat → Except NetError α) :
    Nat → Nat → Except NetError α × Nat
  | k, 0 => (attempt k, 1)
  | k, left + 1 =>
    match attempt k with
    | .ok v => (.ok v, 1)
    | .error e =>
      if isRetryable e then
        match tenacityGo attempt (k + 1) left with
        | (res, n) => (res, n + 1)
      else (.error e, 1)

/-- The retry wrapper applied to `search_tmdb` and `get_movie_details`
(lines 191-197 and 223-229): up to `STOP_AFTER_ATTEMPTS = 3` attempts. -/
def run_with_retry {α : Type} (attempt : Nat → Except NetError α) :
    Except NetError α × Nat :=
  tenacityGo attempt 0 (STOP_AFTER_ATTEMPTS - 1)

/-! Helper lemmas about characters and the word structure produced by
`normalize_title`, used for the idempotence analysis. -/

theorem toNat_ofNat_valid (n : Nat) (h : n.isValidChar) : (Char.ofNat n).toNat = n := by
  simp [Char.ofNat, h, Char.ofNatAux, Char.toNat, UInt32.toNat]

theorem toLower_eq_ite (c : Char) :
    Char.toLower c = if c.toNat ≥ 65 ∧ c.toNat ≤ 90 then Char.ofNat (c.toNat + 32) else c := rfl

theorem toLower_toLower (c : Char) : Char.toLower (Char.toLower c) = Char.toLower c := by
  by_cases h : c.toNat ≥ 65 ∧ c.toNat ≤ 90
  · have hv : (c.toNat + 32).isValidChar := by left; omega
    have h2 : (Char.toLower c).toNat = c.toNat + 32 := by
      rw [toLower_eq_ite, if_pos h, toNat_ofNat_valid _ hv]
    rw [toLower_eq_ite (Char.toLower c), if_neg (by omega)]
  · rw [toLower_eq_ite c, if_neg h, toLower_eq_ite c, if_neg h]


theorem splitWords_cons (c : Char) (rest : List Char) :
    splitWords (c :: rest) =
      if isWS c then splitWords rest
      else
        match rest with
        | [] => [[c]]
        | c2 :: _ =>
          if isWS c2 then [c] :: splitWords rest
          else
            match splitWords rest with
            | [] => [[c]]
            | w :: ws => (c :: w) :: ws := by
  rw [splitWords.eq_def]

theorem splitWords_cons_ws (c : Char) (rest : List Char) (h : isWS c = true) :
    splitWords (c :: rest) = splitWords rest := by
  rw [splitWords_cons, if_pos h]

theorem splitWords_singleton (c : Char) (h : isWS c = false) :
    splitWords [c] = [[c]] := by
  rw [splitWords_cons, if_neg (by simp [h])]

theorem splitWords_cons_cons_ws (c c2 : Char) (r2 : List Char)
    (h : isWS c = false) (h2 : isWS c2 = true) :
    splitWords (c :: c2 :: r2) = [c] :: splitWords (c2 :: r2) := by
  rw [splitWords_cons, if_neg (by simp [h])]
  simp only [h2, if_true]

theorem splitWords_cons_cons_nws (c c2 : Char) (r2 : List Char)
    (h : isWS c = false) (h2 : isWS c2 = false) :
    splitWords (c :: c2 :: r2) =
      match splitWords (c2 :: r2) with
      | [] => [[c]]
      | w :: ws => (c :: w) :: ws := by
  rw [splitWords_cons, if_neg (by simp [h])]
  simp only [h2, Bool.false_eq_true, if_false]

theorem splitWords_ne_nil : ∀ (s : List Char), ∀ w ∈ splitWords s, w ≠ []
  | [], w, hw => by simp [splitWords] at hw
  | c :: rest, w, hw => by
    by_cases hc : isWS c
    · rw [splitWords_cons_ws c rest hc] at hw
      exact splitWords_ne_nil rest w hw
    · match rest with
      | [] =>
        rw [splitWords_singleton c (by simpa using hc)] at hw
        simp at hw; simp [hw]
      | c2 :: r2 =>
        by_cases hc2 : isWS c2
        · rw [splitWords_cons_cons_ws c c2 r2 (by simpa using hc) hc2] at hw
          rcases List.mem_cons.mp hw with h | h
          · simp [h]
          · exact splitWords_ne_nil (c2 :: r2) w h
        · rw [splitWords_cons_cons_nws c c2 r2 (by simpa using hc) (by simpa using hc2)] at hw
          rcases hs : splitWords (c2 :: r2) with _ | ⟨w1, ws1⟩
          · rw [hs] at hw; simp at hw; simp [hw]
          · rw [hs] at hw
            rcases List.mem_cons.mp hw with h | h
            · have hne := splitWords_ne_nil (c2 :: r2) w1 (by rw [hs]; exact List.mem_cons_self _ _)
              subst h
              simp
            · exact splitWords_ne_nil (c2 :: r2) w (by rw [hs]; exact List.mem_cons_of_mem _ h)

theorem splitWords_mem : ∀ (s : List Char), ∀ w ∈ splitWords s, ∀ c ∈ w, c ∈ s
  | [], w, hw, c, hc => by simp [splitWords] at hw
  | d :: rest, w, hw, c, hc => by
    by_cases hd : isWS d
    · rw [splitWords_cons_ws d rest hd] at hw
      exact List.mem_cons_of_mem _ (splitWords_mem rest w hw c hc)
    · match rest with
      | [] =>
        rw [splitWords_singleton d (by simpa using hd)] at hw
        simp at hw; subst hw; simp at hc; simp [hc]
      | c2 :: r2 =>
        by_cases hc2 : isWS c2
        · rw [splitWords_cons_cons_ws d c2 r2 (by simpa using hd) hc2] at hw
          rcases List.mem_cons.mp hw with h | h
          · subst h; simp at hc; simp [hc]
          · exact List.mem_cons_of_mem _ (splitWords_mem (c2 :: r2) w h c hc)
        · rw [splitWords_cons_cons_nws d c2 r2 (by simpa using hd) (by simpa using hc2)] at hw
          rcases hs : splitWords (c2 :: r2) with _ | ⟨w1, ws1⟩
          · rw [hs] at hw; simp at hw; subst hw; simp at hc; simp [hc]
          · rw [hs] at hw
            rcases List.mem_cons.mp hw with h | h
            · subst h
              rcases List.mem_cons.mp hc with h2 | h2
              · simp [h2]
              · have hm : c ∈ c2 :: r2 :=
                  splitWords_mem (c2 :: r2) w1 (by rw [hs]; exact List.mem_cons_self _ _) c h2
                exact List.mem_cons_of_mem _ hm
            · have hm : c ∈ c2 :: r2 :=
                splitWords_mem (c2 :: r2) w (by rw [hs]; exact List.mem_cons_of_mem _ h) c hc
              exact List.mem_cons_of_mem _ hm

theorem splitWords_nws : ∀ (s : List Char), ∀ w ∈ splitWords s, ∀ c ∈ w, isWS c = false
  | [], w, hw, c, hc => by simp [splitWords] at hw
  | d :: rest, w, hw, c, hc => by
    by_cases hd : isWS d
    · rw [splitWords_cons_ws d rest hd] at hw
      exact splitWords_nws rest w hw c hc
    · match rest with
      | [] =>
        rw [splitWords_singleton d (by simpa using hd)] at hw
        simp at hw; subst hw; simp at hc; subst hc; simpa using hd
      | c2 :: r2 =>
        by_cases hc2 : isWS c2
        · rw [splitWords_cons_cons_ws d c2 r2 (by simpa using hd) hc2] at hw
          rcases List.mem_cons.mp hw with h | h
          · subst h; simp at hc; subst hc; simpa using hd
          · exact splitWords_nws (c2 :: r2) w h c hc
        · rw [splitWords_cons_cons_nws d c2 r2 (by simpa using hd) (by simpa using hc2)] at hw
          rcases hs : splitWords (c2 :: r2) with _ | ⟨w1, ws1⟩
          · rw [hs] at hw; simp at hw; subst hw; simp at hc; subst hc; simpa using hd
          · rw [hs] at hw
            rcases List.mem_cons.mp hw with h | h
            · subst h
              rcases List.mem_cons.mp hc with h2 | h2
              · subst h2; simpa using hd
              · exact splitWords_nws (c2 :: r2) w1
                  (by rw [hs]; exact List.mem_cons_self _ _) c h2
            · exact splitWords_nws (c2 :: r2) w
                (by rw [hs]; exact List.mem_cons_of_mem _ h) c hc

theorem splitWords_word : ∀ (w : List Char), w ≠ [] → (∀ c ∈ w, isWS c = false) →
    splitWords w = [w]
  | [], h, _ => absurd rfl h
  | [c], _, hnws => splitWords_singleton c (hnws c (by simp))
  | c :: c2 :: r2, _, hnws => by
    have hc : isWS c = false := hnws c (by simp)
    have hc2 : isWS c2 = false := hnws c2 (by simp)
    rw [splitWords_cons_cons_nws c c2 r2 hc hc2,
      splitWords_word (c2 :: r2) (by simp) (fun d hd => hnws d (List.mem_cons_of_mem _ hd))]

theorem splitWords_append_space : ∀ (w : List Char), w ≠ [] → (∀ c ∈ w, isWS c = false) →
    ∀ r, splitWords (w ++ ' ' :: r) = w :: splitWords r
  | [], h, _, r => absurd rfl h
  | [c], _, hnws, r => by
    have hc : isWS c = false := hnws c (by simp)
    have : ([c] ++ ' ' :: r) = c :: ' ' :: r := by simp
    rw [this, splitWords_cons_cons_ws c ' ' r hc (by decide),
      splitWords_cons_ws ' ' r (by decide)]
  | c :: c2 :: r2, _, hnws, r => by
    have hc : isWS c = false := hnws c (by simp)
    have hc2 : isWS c2 = false := hnws c2 (by simp)
    have hrec := splitWords_append_space (c2 :: r2) (by simp)
      (fun d hd => hnws d (List.mem_cons_of_mem _ hd)) r
    have hshape : (c :: c2 :: r2) ++ ' ' :: r = c :: c2 :: (r2 ++ ' ' :: r) := by simp
    rw [hshape, splitWords_cons_cons_nws c c2 (r2 ++ ' ' :: r) hc hc2]
    have hshape2 : c2 :: (r2 ++ ' ' :: r) = (c2 :: r2) ++ ' ' :: r := by simp
    rw [hshape2, hrec]

theorem splitWords_joinWords : ∀ (ws : List (List Char)),
    (∀ w ∈ ws, w ≠ []) → (∀ w ∈ ws, ∀ c ∈ w, isWS c = false) →
    splitWords (joinWords ws) = ws
  | [], _, _ => rfl
  | [w], hne, hnws => by
    rw [joinWords]
    exact splitWords_word w (hne w (by simp)) (hnws w (by simp))
  | w :: w2 :: ws, hne, hnws => by
    have : joinWords (w :: w2 :: ws) = w ++ ' ' :: joinWords (w2 :: ws) := rfl
    rw [this, splitWords_append_space w (hne w (by simp)) (hnws w (by simp)),
      splitWords_joinWords (w2 :: ws) (fun v hv => hne v (List.mem_cons_of_mem _ hv))
        (fun v hv => hnws v (List.mem_cons_of_mem _ hv))]

theorem mem_joinWords : ∀ (ws : List (List Char)), ∀ c ∈ joinWords ws,
    c = ' ' ∨ ∃ w ∈ ws, c ∈ w
  | [], c, hc => by simp [joinWords] at hc
  | [w], c, hc => by
    rw [joinWords] at hc
    exact Or.inr ⟨w, by simp, hc⟩
  | w :: w2 :: ws, c, hc => by
    have : joinWords (w :: w2 :: ws) = w ++ ' ' :: joinWords (w2 :: ws) := rfl
    rw [this] at hc
    rcases List.mem_append.mp hc with h | h
    · exact Or.inr ⟨w, by simp, h⟩
    · rcases List.mem_cons.mp h with h2 | h2
      · exact Or.inl h2
      · rcases mem_joinWords (w2 :: ws) c h2 with h3 | ⟨v, hv, hcv⟩
        · exact Or.inl h3
        · exact Or.inr ⟨v, List.mem_cons_of_mem _ hv, hcv⟩

theorem joinWords_head : ∀ (ws : List (List Char)), ws ≠ [] →
    (∀ w ∈ ws, w ≠ []) → (∀ w ∈ ws, ∀ c ∈ w, isWS c = false) →
    ∃ c t, joinWords ws = c :: t ∧ isWS c = false
  | [], h, _, _ => absurd rfl h
  | [w], _, hne, hnws => by
    rcases w with _ | ⟨c, t⟩
    · exact absurd rfl (hne [] (by simp))
    · exact ⟨c, t, rfl, hnws (c :: t) (by simp) c (by simp)⟩
  | w :: w2 :: ws, _, hne, hnws => by
    rcases hw : w with _ | ⟨c, t⟩
    · exact absurd hw (hne w (by simp))
    · subst hw
      refine ⟨c, t ++ ' ' :: joinWords (w2 :: ws), rfl, ?_⟩
      exact hnws (c :: t) (by simp) c (by simp)

theorem joinWords_revhead : ∀ (ws : List (List Char)), ws ≠ [] →
    (∀ w ∈ ws, w ≠ []) → (∀ w ∈ ws, ∀ c ∈ w, isWS c = false) →
    ∃ c t, (joinWords ws).reverse = c :: t ∧ isWS c = false
  | [], h, _, _ => absurd rfl h
  | [w], _, hne, hnws => by
    have hwne : w ≠ [] := hne w (by simp)
    have hrne : w.reverse ≠ [] := by simpa using hwne
    rcases hr : w.reverse with _ | ⟨c, t⟩
    · exact absurd hr hrne
    · refine ⟨c, t, by rw [joinWords, hr], ?_⟩
      have : c ∈ w.reverse := by rw [hr]; simp
      exact hnws w (by simp) c (List.mem_reverse.mp this)
  | w :: w2 :: ws, _, hne, hnws => by
    obtain ⟨c, t, hct, hc⟩ := joinWords_revhead (w2 :: ws) (by simp)
      (fun v hv => hne v (List.mem_cons_of_mem _ hv))
      (fun v hv => hnws v (List.mem_cons_of_mem _ hv))
    have : joinWords (w :: w2 :: ws) = w ++ ' ' :: joinWords (w2 :: ws) := rfl
    refine ⟨c, t ++ ' ' :: w.reverse, ?_, hc⟩
    rw [this, List.reverse_append, List.reverse_cons, List.append_assoc, hct]
    simp

theorem stripWS_joinWords (ws : List (List Char))
    (hne : ∀ w ∈ ws, w ≠ []) (hnws : ∀ w ∈ ws, ∀ c ∈ w, isWS c = false) :
    stripWS (joinWords ws) = joinWords ws := by
  rcases ws with _ | ⟨w, ws⟩
  · rfl
  · obtain ⟨c, t, hct, hc⟩ := joinWords_head (w :: ws) (by simp) hne hnws
    obtain ⟨c2, t2, hct2, hc2⟩ := joinWords_revhead (w :: ws) (by simp) hne hnws
    unfold stripWS
    rw [hct, List.dropWhile_cons, if_neg (by simp [hc]), ← hct, hct2,
      List.dropWhile_cons, if_neg (by simp [hc2]), ← hct2, List.reverse_reverse]

theorem collapseWS_joinWords (ws : List (List Char))
    (hne : ∀ w ∈ ws, w ≠ []) (hnws : ∀ w ∈ ws, ∀ c ∈ w, isWS c = false) :
    collapseWS (joinWords ws) = joinWords ws := by
  unfold collapseWS
  rw [splitWords_joinWords ws hne hnws]

theorem mem_stripWS {s : List Char} {c : Char} (h : c ∈ stripWS s) : c ∈ s := by
  unfold stripWS at h
  have h1 := List.mem_reverse.mp h
  have h2 := (List.dropWhile_sublist isWS).subset h1
  have h3 := List.mem_reverse.mp h2
  exact (List.dropWhile_sublist isWS).subset h3

theorem mem_dropYearSuffix {s : List Char} {c : Char} (h : c ∈ dropYearSuffix s) : c ∈ s := by
  unfold dropYearSuffix at h
  split at h
  · next d1 d2 d3 d4 t heq =>
    split at h
    · have h1 := List.mem_reverse.mp h
      have h2 := (List.dropWhile_sublist isWS).subset h1
      have h3 : c ∈ s.reverse.dropWhile isWS := by
        rw [heq]
        simp only [List.mem_cons]
        exact Or.inr (Or.inr (Or.inr (Or.inr (Or.inr (Or.inr h2)))))
      exact List.mem_reverse.mp ((List.dropWhile_sublist isWS).subset h3)
    · exact h
  · exact h

theorem tryStripArticle_some {art s r : List Char} (h : tryStripArticle art s = some r) :
    r = List.dropWhile isWS (s.drop art.length) := by
  unfold tryStripArticle at h
  split at h
  · split at h
    · next c rest heq =>
      split at h
      · rw [heq]; exact (Option.some.injEq _ _ ▸ h).symm
      · exact absurd h (by simp)
    · exact absurd h (by simp)
  · exact absurd h (by simp)

theorem mem_stripLeadingArticle {s : List Char} {c : Char}
    (h : c ∈ stripLeadingArticle s) : c ∈ s := by
  have key : ∀ art r, tryStripArticle art s = some r → c ∈ r → c ∈ s := by
    intro art r hr hc
    rw [tryStripArticle_some hr] at hc
    exact (List.drop_subset _ _) ((List.dropWhile_sublist isWS).subset hc)
  unfold stripLeadingArticle at h
  split at h
  · next r heq => exact key _ r heq h
  · split at h
    · next r heq => exact key _ r heq h
    · split at h
      · next r heq => exact key _ r heq h
      · exact h

theorem mem_map_toLower_fixed {s : List Char} {c : Char}
    (h : c ∈ s.map Char.toLower) : Char.toLower c = c := by
  rcases List.mem_map.mp h with ⟨d, _, hd⟩
  rw [← hd]
  exact toLower_toLower d

theorem dropYearSuffix_eq_self {s : List Char} (h : ')' ∉ s) : dropYearSuffix s = s := by
  unfold dropYearSuffix
  split
  · next d1 d2 d3 d4 t heq =>
    exfalso
    apply h
    have : (')' : Char) ∈ s.reverse.dropWhile isWS := by rw [heq]; simp
    exact List.mem_reverse.mp ((List.dropWhile_sublist isWS).subset this)
  · rfl

theorem isSome_false_eq_none {α : Type} {o : Option α} (h : o.isSome = false) : o = none := by
  cases o
  · rfl
  · simp at h

theorem stripLeadingArticle_eq_self {s : List Char} (h : startsWithArticle s = false) :
    stripLeadingArticle s = s := by
  unfold startsWithArticle at h
  simp only [Bool.or_eq_false_iff] at h
  obtain ⟨⟨h1, h2⟩, h3⟩ := h
  unfold stripLeadingArticle
  rw [isSome_false_eq_none h1, isSome_false_eq_none h2, isSome_false_eq_none h3]

theorem normalize_title_of_ne_nil (t : List Char) (h : t ≠ []) :
    normalize_title t = collapseWS (stripLeadingArticle
      ((dropYearSuffix (stripWS (t.map Char.toLower))).filter
        (fun c => isWordChar c || isWS c))) := by
  unfold normalize_title
  rw [if_neg h]

theorem stripWS_collapseWS (x : List Char) : stripWS (collapseWS x) = collapseWS x := by
  unfold collapseWS
  exact stripWS_joinWords _ (splitWords_ne_nil x) (splitWords_nws x)

theorem collapseWS_idem (x : List Char) : collapseWS (collapseWS x) = collapseWS x := by
  show collapseWS (joinWords (splitWords x)) = joinWords (splitWords x)
  exact collapseWS_joinWords _ (splitWords_ne_nil x) (splitWords_nws x)

theorem normalize_title_chars (s : List Char) :
    ∀ c ∈ normalize_title s,
      Char.toLower c = c ∧ (c = ' ' ∨ (isWordChar c = true ∧ isWS c = false)) := by
  intro c hc
  by_cases hs : s = []
  · rw [hs] at hc; simp [normalize_title] at hc
  · rw [normalize_title_of_ne_nil s hs] at hc
    unfold collapseWS at hc
    rcases mem_joinWords _ c hc with hsp | ⟨w, hw, hcw⟩
    · subst hsp
      exact ⟨by decide, Or.inl rfl⟩
    · have hnws := splitWords_nws _ w hw c hcw
      have hmem4 := splitWords_mem _ w hw c hcw
      have hmem3 := mem_stripLeadingArticle hmem4
      have hp := List.of_mem_filter hmem3
      have hmem2 := List.mem_of_mem_filter hmem3
      have hmem1 := mem_dropYearSuffix hmem2
      have hmem0 := mem_stripWS hmem1
      have hlow := mem_map_toLower_fixed hmem0
      refine ⟨hlow, Or.inr ⟨?_, hnws⟩⟩
      simp only [Bool.or_eq_true] at hp
      rcases hp with hp | hp
      · exact hp
      · rw [hnws] at hp; exact absurd hp (by simp)

theorem normalize_title_idem_of_no_article (s : List Char)
    (h : startsWithArticle (normalize_title s) = false) :
    normalize_title (normalize_title s) = normalize_title s := by
  by_cases hnil : normalize_title s = []
  · rw [hnil]; rfl
  · have hs : s ≠ [] := by
      intro h0
      apply hnil
      rw [h0]; rfl
    have hform := normalize_title_of_ne_nil s hs
    have hchars := normalize_title_chars s
    have hmap : (normalize_title s).map Char.toLower = normalize_title s := by
      conv_rhs => rw [← List.map_id (normalize_title s)]
      exact List.map_congr_left (fun c hc => (hchars c hc).1)
    have hstrip : stripWS (normalize_title s) = normalize_title s := by
      rw [hform]
      exact stripWS_collapseWS _
    have hyear : dropYearSuffix (normalize_title s) = normalize_title s := by
      apply dropYearSuffix_eq_self
      intro hmem
      rcases (hchars _ hmem).2 with h2 | ⟨h2, _⟩
      · exact absurd h2 (by decide)
      · exact absurd h2 (by decide)
    have hfilter : (normalize_title s).filter (fun c => isWordChar c || isWS c) =
        normalize_title s := by
      apply List.filter_eq_self.mpr
      intro c hc
      rcases (hchars c hc).2 with h2 | ⟨h2, _⟩
      · subst h2; decide
      · simp [h2]
    have hart : stripLeadingArticle (normalize_title s) = normalize_title s :=
      stripLeadingArticle_eq_self h
    have hcol : collapseWS (normalize_title s) = normalize_title s := by
      rw [hform]
      exact collapseWS_idem _
    rw [normalize_title_of_ne_nil (normalize_title s) hnil, hmap, hstrip, hyear,
      hfilter, hart, hcol]

/-- Stripping a matched article removes the article and at least the first
whitespace character, so the result is strictly shorter. -/
theorem tryStripArticle_length {art s r : List Char} (hart : art ≠ [])
    (h : tryStripArticle art s = some r) : r.length < s.length := by
  unfold tryStripArticle at h
  split at h
  · split at h
    · next c rest heq =>
      split at h
      · next hws =>
        have hr : r = List.dropWhile isWS (c :: rest) :=
          (Option.some.injEq _ _ ▸ h).symm
        have hlen1 : r.length ≤ rest.length := by
          rw [hr, List.dropWhile_cons, if_pos hws]
          exact (List.dropWhile_sublist isWS).length_le
        have hlen2 : rest.length + 1 = s.length - art.length := by
          have := congrArg List.length heq
          simpa [Nat.add_comm] using this.symm
        have hartlen : 1 ≤ art.length := by
          cases art with
          | nil => exact absurd rfl hart
          | cons a t => simp
        have hslen : art.length < s.length := by
          by_contra hc
          push_neg at hc
          omega
        omega
      · exact absurd h (by simp)
    · exact absurd h (by simp)
  · exact absurd h (by simp)

/-- When a string starts with a leading article, `stripLeadingArticle`
makes it strictly shorter. -/
theorem stripLeadingArticle_length_lt {s : List Char}
    (h : startsWithArticle s = true) :
    (stripLeadingArticle s).length < s.length := by
  unfold stripLeadingArticle
  cases h1 : tryStripArticle ['t', 'h', 'e'] s with
  | some r => exact tryStripArticle_length (by simp) h1
  | none =>
    cases h2 : tryStripArticle ['a'] s with
    | some r => exact tryStripArticle_length (by simp) h2
    | none =>
      cases h3 : tryStripArticle ['a', 'n'] s with
      | some r => exact tryStripArticle_length (by simp) h3
      | none =>
        exfalso
        unfold startsWithArticle at h
        rw [h1, h2, h3] at h
        simp at h

/-- Prepending a character to the first word lengthens the joined string by
exactly one. -/
theorem joinWords_cons_cons_length (c : Char) (w : List Char)
    (ws : List (List Char)) :
    (joinWords ((c :: w) :: ws)).length = (joinWords (w :: ws)).length + 1 := by
  cases ws with
  | nil => simp [joinWords]
  | cons w2 ws2 =>
    show ((c :: w) ++ ' ' :: joinWords (w2 :: ws2)).length =
      (w ++ ' ' :: joinWords (w2 :: ws2)).length + 1
    simp only [List.length_append, List.length_cons, List.length_nil]
    omega

/-- Whitespace collapsing never lengthens a string (each whitespace run
becomes at most one space and the ends are stripped). -/
theorem collapseWS_length : ∀ x : List Char, (collapseWS x).length ≤ x.length
  | [] => le_refl _
  | c :: rest => by
    unfold collapseWS
    by_cases hc : isWS c
    · rw [splitWords_cons_ws c rest hc]
      have := collapseWS_length rest
      unfold collapseWS at this
      simp only [List.length_cons]
      omega
    · match rest with
      | [] =>
        rw [splitWords_singleton c (by simpa using hc)]
        simp [joinWords]
      | c2 :: r2 =>
        by_cases hc2 : isWS c2
        · rw [splitWords_cons_cons_ws c c2 r2 (by simpa using hc) hc2,
            splitWords_cons_ws c2 r2 hc2]
          have := collapseWS_length r2
          unfold collapseWS at this
          cases hws : splitWords r2 with
          | nil => simp [joinWords]
          | cons w ws2 =>
            rw [hws] at this
            show (joinWords ([c] :: w :: ws2)).length ≤ (c :: c2 :: r2).length
            have hjoin : joinWords ([c] :: w :: ws2) =
                [c] ++ ' ' :: joinWords (w :: ws2) := rfl
            rw [hjoin]
            simp only [List.length_append, List.length_cons, List.length_nil]
            omega
        · rw [splitWords_cons_cons_nws c c2 r2 (by simpa using hc) (by simpa using hc2)]
          have := collapseWS_length (c2 :: r2)
          unfold collapseWS at this
          cases hws : splitWords (c2 :: r2) with
          | nil => simp [joinWords]
          | cons w ws2 =>
            rw [hws] at this
            show (joinWords ((c :: w) :: ws2)).length ≤ (c :: c2 :: r2).length
            rw [joinWords_cons_cons_length]
            simp only [List.length_cons] at *
            omega

/-- On a second pass over an already-normalized (non-empty) string, the
lowercasing, stripping, year-removal and punctuation stages are all
identities, so the pass reduces to stripping a leading article and
re-collapsing. -/
theorem normalize_title_second_pass (s : List Char)
    (hnil : normalize_title s ≠ []) :
    normalize_title (normalize_title s) =
      collapseWS (stripLeadingArticle (normalize_title s)) := by
  have hs : s ≠ [] := by
    intro h0
    apply hnil
    rw [h0]; rfl
  have hform := normalize_title_of_ne_nil s hs
  have hchars := normalize_title_chars s
  have hmap : (normalize_title s).map Char.toLower = normalize_title s := by
    conv_rhs => rw [← List.map_id (normalize_title s)]
    exact List.map_congr_left (fun c hc => (hchars c hc).1)
  have hstrip : stripWS (normalize_title s) = normalize_title s := by
    rw [hform]
    exact stripWS_collapseWS _
  have hyear : dropYearSuffix (normalize_title s) = normalize_title s := by
    apply dropYearSuffix_eq_self
    intro hmem
    rcases (hchars _ hmem).2 with h2 | ⟨h2, _⟩
    · exact absurd h2 (by decide)
    · exact absurd h2 (by decide)
  have hfilter : (normalize_title s).filter (fun c => isWordChar c || isWS c) =
      normalize_title s := by
    apply List.filter_eq_self.mpr
    intro c hc
    rcases (hchars c hc).2 with h2 | ⟨h2, _⟩
    · subst h2; decide
    · simp [h2]
  rw [normalize_title_of_ne_nil (normalize_title s) hnil, hmap, hstrip, hyear,
    hfilter]

/-- When the normalized form still starts with a leading article, a second
pass strips it again and yields a strictly shorter string, so normalization
is not idempotent there. -/
theorem normalize_title_not_idem_of_article (s : List Char)
    (h : startsWithArticle (normalize_title s) = true) :
    normalize_title (normalize_title s) ≠ normalize_title s := by
  have hnil : normalize_title s ≠ [] := by
    intro h0
    rw [h0] at h
    exact absurd h (by decide)
  have hlen : (normalize_title (normalize_title s)).length <
      (normalize_title s).length := by
    rw [normalize_title_second_pass s hnil]
    calc (collapseWS (stripLeadingArticle (normalize_title s))).length
        ≤ (stripLeadingArticle (normalize_title s)).length := collapseWS_length _
      _ < (normalize_title s).length := stripLeadingArticle_length_lt h
  intro heq
  rw [heq] at hlen
  exact lt_irrefl _ hlen

/-- Claim C4, counterexample: `normalize_title` is not idempotent.  For
`"The A Team"` one pass gives `"a team"` (only one leading article is
stripped), and a second pass strips the now-leading `"a "`, giving
`"team"`. -/
theorem C4_counterexample :
    normalize_title (normalize_title "The A Team".data) ≠
      normalize_title "The A Team".data := by decide

/-- Claim C4 (amended): `normalize` is case/punctuation/article-insensitive
(`normalize("THE BUCKET LIST") = normalize("Bucket List")`), and it is
idempotent exactly on the titles whose normalized form does not itself begin
with a leading article followed by whitespace; whenever the normalized form
does begin with one, the second pass strips that article again (and
re-collapses whitespace), so idempotence fails there. -/
theorem C4_normalize_idempotent :
    (∀ s : List Char,
      normalize_title (normalize_title s) = normalize_title s ↔
        startsWithArticle (normalize_title s) = false) ∧
    (∀ s : List Char, startsWithArticle (normalize_title s) = true →
      normalize_title (normalize_title s) =
        collapseWS (stripLeadingArticle (normalize_title s))) ∧
    normalize_title "THE BUCKET LIST".data = normalize_title "Bucket List".data := by
  refine ⟨?_, ?_, by decide⟩
  · intro s
    constructor
    · intro heq
      cases hsa : startsWithArticle (normalize_title s) with
      | false => rfl
      | true => exact absurd heq (normalize_title_not_idem_of_article s hsa)
    · exact normalize_title_idem_of_no_article s
  · intro s h
    have hnil : normalize_title s ≠ [] := by
      intro h0
      rw [h0] at h
      exact absurd h (by decide)
    exact normalize_title_second_pass s hnil

/-- Witness for C4: both directions at concrete titles — idempotence at
`"Juno (2007)"`, and the second-pass article strip at `"The A Team"`
(whose normalized form `"a team"` starts with an article). -/
theorem C4_witness :
    normalize_title (normalize_title "Juno (2007)".data) =
      normalize_title "Juno (2007)".data ∧
    normalize_title (normalize_title "The A Team".data) =
      collapseWS (stripLeadingArticle (normalize_title "The A Team".data)) :=
  ⟨(C4_normalize_idempotent.1 "Juno (2007)".data).mpr (by decide),
    C4_normalize_idempotent.2.1 "The A Team".data (by decide)⟩

/-- Claim C5: `is_title_match` returns false whenever either side
normalizes to the empty string; otherwise it is true exactly when the
normalized forms are equal, or one contains the other, or the
`SequenceMatcher` similarity ratio reaches the threshold; in particular
`is_title_match "Juno" "Juno: A Film"` holds (containment) and
`is_title_match "Juno" "Juneau"` fails at the default threshold `0.85`
(the ratio is `3/5`). -/
theorem C5_is_title_match_spec :
    (∀ s t : List Char, ∀ th : ℚ,
      normalize_title s = [] ∨ normalize_title t = [] →
        is_title_match s t th = false) ∧
    (∀ s t : List Char, ∀ th : ℚ,
      normalize_title s ≠ [] → normalize_title t ≠ [] →
        (is_title_match s t th = true ↔
          normalize_title s = normalize_title t ∨
            isSubOf (normalize_title s) (normalize_title t) = true ∨
            isSubOf (normalize_title t) (normalize_title s) = true ∨
            th ≤ sequenceMatcherRatio (normalize_title s) (normalize_title t))) ∧
    is_title_match "Juno".data "Juno: A Film".data = true ∧
    is_title_match "Juno".data "Juneau".data = false := by
  have empty_case : ∀ s t : List Char, ∀ th : ℚ,
      normalize_title s = [] ∨ normalize_title t = [] →
        is_title_match s t th = false := by
    intro s t th h
    unfold is_title_match
    rcases h with h | h <;> simp [h]
  have main_iff : ∀ s t : List Char, ∀ th : ℚ,
      normalize_title s ≠ [] → normalize_title t ≠ [] →
        (is_title_match s t th = true ↔
          normalize_title s = normalize_title t ∨
            isSubOf (normalize_title s) (normalize_title t) = true ∨
            isSubOf (normalize_title t) (normalize_title s) = true ∨
            th ≤ sequenceMatcherRatio (normalize_title s) (normalize_title t)) := by
    intro s t th h1 h2
    unfold is_title_match
    rw [if_neg (by simp [h1, h2])]
    by_cases heq : normalize_title s = normalize_title t
    · simp [heq]
    · rw [if_neg heq]
      by_cases hsub : isSubOf (normalize_title s) (normalize_title t) = true ∨
          isSubOf (normalize_title t) (normalize_title s) = true
      · rw [if_pos (by rcases hsub with h | h <;> simp [h])]
        constructor
        · intro _
          rcases hsub with h | h
          · exact Or.inr (Or.inl h)
          · exact Or.inr (Or.inr (Or.inl h))
        · intro _; rfl
      · push_neg at hsub
        simp only [Bool.not_eq_true] at hsub
        rw [if_neg (by simp [hsub.1, hsub.2])]
        simp [heq, hsub.1, hsub.2]
  refine ⟨empty_case, main_iff, by decide, ?_⟩
  have hn1 : normalize_title "Juno".data = ['j', 'u', 'n', 'o'] := by decide
  have hn2 : normalize_title "Juneau".data = ['j', 'u', 'n', 'e', 'a', 'u'] := by decide
  have hm : matchSum ['j', 'u', 'n', 'o'] ['j', 'u', 'n', 'e', 'a', 'u'] 11 0 4 0 6 = 3 := by
    decide
  have hr : sequenceMatcherRatio ['j', 'u', 'n', 'o'] ['j', 'u', 'n', 'e', 'a', 'u'] = 3 / 5 := by
    simp only [sequenceMatcherRatio, List.length_cons, List.length_nil]
    norm_num [hm]
  have hiff := main_iff "Juno".data "Juneau".data (17 / 20) (by decide) (by decide)
  rw [hn1, hn2, hr] at hiff
  have : ¬ is_title_match "Juno".data "Juneau".data (17 / 20) = true := by
    rw [hiff]
    rintro (h | h | h | h)
    · exact absurd h (by decide)
    · exact absurd h (by decide)
    · exact absurd h (by decide)
    · norm_num at h
  simp only [Bool.not_eq_true] at this
  exact this

/-- Witness for C5: the empty-side guard at a concrete input (`"!!!"`
normalizes to the empty string). -/
theorem C5_witness :
    is_title_match "!!!".data "Juno".data (17 / 20) = false :=
  C5_is_title_match_spec.1 "!!!".data "Juno".data (17 / 20) (Or.inl (by decide))

/-- A details oracle whose every call fails. -/
def detailsAllFail : Nat → Except Unit MovieDetails := fun _ => .error ()

/-- A world whose search succeeds with zero results. -/
def worldNoResults : ExternalWorld := ⟨.ok [], detailsAllFail⟩

/-- A world whose search fails (every retry exhausted). -/
def worldSearchFails : ExternalWorld := ⟨.error (), detailsAllFail⟩

/-- A search candidate matching `"Juno"` with a release date, in a world
whose details endpoint always fails. -/
def junoCandidate : SearchResult := ⟨7, "Juno".data, "2007-12-05".data⟩

/-- A world returning the single candidate `junoCandidate`, with a failing
details endpoint. -/
def worldDetailsFail : ExternalWorld := ⟨.ok [junoCandidate], detailsAllFail⟩

/-- Claim C1, counterexample: with `"Juno"` in both override lists, `main`
exits 0 (force-analyze, i.e. `is_produced = false`) because the
`force_analyze` loop runs first (lines 401-404) — not exit 1 as the claimed
`force_skip` precedence would give. -/
theorem C1_counterexample :
    main_run "Juno".data none true ⟨["Juno".data], ["Juno".data]⟩ []
        worldNoResults 0 = (0, [], 0) ∧ (0 : Nat) ≠ 1 := by
  constructor
  · decide
  · decide

/-- Claim C1 (amended): for every title that appears, after normalization,
in the `force_analyze` override list — in particular one that is also in
`force_skip` — the decision is `is_produced = false` (exit code 0):
`force_analyze` takes precedence over `force_skip`. -/
theorem C1_force_analyze_precedence (title : List Char) (yc : Option Int)
    (ov : Overrides) (cache : Cache) (world : ExternalWorld) (now : ℚ)
    (h : ∃ t ∈ ov.force_analyze, normalize_title t = normalize_title title) :
    main_run title yc true ov cache world now = (0, cache, 0) := by
  unfold main_run
  rw [if_neg (by simp)]
  have hany : (ov.force_analyze.any fun t => normalize_title t = normalize_title title) = true := by
    obtain ⟨t, ht, hnt⟩ := h
    exact List.any_eq_true.mpr ⟨t, ht, by simp [hnt]⟩
  rw [if_pos hany]

/-- Witness for C1: override listed under a differently-normalized spelling. -/
theorem C1_witness :
    main_run "Juno".data none true ⟨["THE JUNO!".data], ["Juno".data]⟩ []
        worldNoResults 0 = (0, [], 0) := by
  exact C1_force_analyze_precedence "Juno".data none
    ⟨["THE JUNO!".data], ["Juno".data]⟩ [] worldNoResults 0 ⟨"THE JUNO!".data, by decide⟩

/-- Claim C2, counterexample: with an empty cache and a persistently failing
search, `main` exits 0 (not the claimed exit-code-2 equivalent): the
exception is caught inside `check_if_produced` (lines 282-284), which
returns `is_produced = false`, so `main` takes the `return 0` path. -/
theorem C2_counterexample :
    main_run "Juno".data none true ⟨[], []⟩ [] worldSearchFails 0 = (0, [], 1) ∧
      (0 : Nat) ≠ 2 := by
  constructor
  · decide
  · decide

/-- Claim C2 (amended): for every title whose external search fails after
retries are exhausted, `check_if_produced` returns `is_produced = false`
with the distinct `ERROR:`-family reason (distinguishable from the confident
`NOT PRODUCED:` reasons) and no details entry, the cache is unchanged (no
entry written), and the CLI exit code is 0 — proceed with analysis — rather
than 2. -/
theorem C2_search_failure (title : List Char) (yc : Option Int) (cache : Cache)
    (world : ExternalWorld) (now : ℚ)
    (hmiss : get_cached_result title cache now = none)
    (herr : world.search = .error ()) :
    check_if_produced title yc cache world now =
      ⟨false, .searchError, cache, 1, none⟩ ∧
    (main_run title yc true ⟨[], []⟩ cache world now).1 = 0 := by
  have h1 : check_if_produced title yc cache world now =
      ⟨false, .searchError, cache, 1, none⟩ := by
    unfold check_if_produced
    rw [hmiss, herr]
  refine ⟨h1, ?_⟩
  unfold main_run
  rw [if_neg (by simp)]
  simp only [List.any_nil, Bool.false_eq_true, if_false, h1]

/-- Witness for C2 at a concrete failing world. -/
theorem C2_witness :
    check_if_produced "Hanna".data none [] worldSearchFails 5 =
      ⟨false, .searchError, [], 1, none⟩ ∧
    (main_run "Hanna".data none true ⟨[], []⟩ [] worldSearchFails 5).1 = 0 :=
  C2_search_failure "Hanna".data none [] worldSearchFails 5 (by decide) rfl

/-- Claim C3, counterexample: a single matching candidate whose details
fetch fails but which carries a release date yields `is_produced = true`
with assumed status `"Released"` (lines 325-328) — the failed fetch does by
itself produce a positive verdict, contradicting the claim. -/
theorem C3_counterexample :
    check_if_produced "Juno".data none [] worldDetailsFail 0 =
      ⟨true, .produced,
        [(['j', 'u', 'n', 'o'],
          ⟨true, some 7, some "Juno".data, some "2007-12-05".data,
            some "Released".data, some 0, .high⟩)],
        2,
        some ⟨true, some 7, some "Juno".data, some "2007-12-05".data,
          some "Released".data, some 0, .high⟩⟩ := by
  decide

/-- Claim C3 (amended): on a details-fetch failure for one candidate the
engine logs and falls back instead of aborting the whole search: when the
candidate has no release date its status is assumed `"Unknown"` and the scan
continues with the next candidate; when it has a release date its status is
assumed `"Released"`, which by itself yields `is_produced = true`. -/
theorem C3_details_failure (title : List Char) (yc : Option Int)
    (world : ExternalWorld) (r : SearchResult) (rest : List SearchResult)
    (hm : is_title_match title r.title = true)
    (hy : yearSkip yc r.release_date = false)
    (hf : world.details r.id = .error ()) :
    (r.release_date = [] →
      scanCandidates title yc world (r :: rest) =
        ((scanCandidates title yc world rest).1,
          (scanCandidates title yc world rest).2 + 1)) ∧
    (r.release_date ≠ [] →
      scanCandidates title yc world (r :: rest) = (some (r, "Released".data), 1)) := by
  constructor
  · intro hrd
    rw [scanCandidates.eq_def]
    rw [hrd] at hy
    simp [hm, hy, hf, hrd, PRODUCED_STATUSES]
  · intro hrd
    rw [scanCandidates.eq_def]
    simp [hm, hy, hf, hrd, PRODUCED_STATUSES]

/-- Witness for C3 at a concrete candidate without and with a release
date. -/
theorem C3_witness :
    scanCandidates "Juno".data none worldDetailsFail [⟨9, "Juno".data, []⟩] =
      ((scanCandidates "Juno".data none worldDetailsFail []).1,
        (scanCandidates "Juno".data none worldDetailsFail []).2 + 1) ∧
    scanCandidates "Juno".data none worldDetailsFail [junoCandidate] =
      (some (junoCandidate, "Released".data), 1) := by
  constructor
  · exact (C3_details_failure "Juno".data none worldDetailsFail ⟨9, "Juno".data, []⟩ []
      (by decide) (by decide) rfl).1 rfl
  · exact (C3_details_failure "Juno".data none worldDetailsFail junoCandidate []
      (by decide) (by decide) rfl).2 (by decide)

/-- Dict lookup after an insert at the same key finds the new value. -/
theorem lookupEntry_cacheInsert_self (key : List Char) (v : CacheEntry) :
    ∀ c : Cache, lookupEntry key (cacheInsert key v c) = some v
  | [] => by simp [cacheInsert, lookupEntry]
  | (k, v') :: rest => by
    by_cases hk : k = key
    · simp [cacheInsert, hk, lookupEntry]
    · simp only [cacheInsert, if_neg hk, lookupEntry]
      exact lookupEntry_cacheInsert_self key v rest

/-- On a cache miss, `check_if_produced` always performs the search call. -/
theorem check_calls_pos (title : List Char) (yc : Option Int) (cache : Cache)
    (world : ExternalWorld) (now : ℚ)
    (hmiss : get_cached_result title cache now = none) :
    1 ≤ (check_if_produced title yc cache world now).calls := by
  unfold check_if_produced
  rw [hmiss]
  cases hs : world.search with
  | error e => simp
  | ok results =>
    by_cases hres : results = []
    · simp [hres]
    · rcases hscan : scanCandidates title yc world results with ⟨res, n⟩
      cases res with
      | none => simp [hres, hscan]
      | some pr => simp [hres, hscan]

/-- Claim C6: the cache lookup returns a timestamped entry exactly when it
is at most 30 days old (`now - checked_at ≤ CACHE_EXPIRY_DAYS`); an older
entry behaves as absent and `check_if_produced` then performs the external
search, while a fresh one short-circuits the decision with the stored
verdict, an unchanged cache and zero external calls. -/
theorem C6_cache_ttl (title : List Char) (cache : Cache) (now t : ℚ)
    (entry : CacheEntry)
    (hfind : lookupEntry (normalize_title title) cache = some entry)
    (hts : entry.checked_at = some t) :
    (get_cached_result title cache now = some entry ↔
      now - t ≤ CACHE_EXPIRY_DAYS) ∧
    (CACHE_EXPIRY_DAYS < now - t →
      get_cached_result title cache now = none ∧
      ∀ yc world, 1 ≤ (check_if_produced title yc cache world now).calls) ∧
    (now - t ≤ CACHE_EXPIRY_DAYS → ∀ yc world,
      check_if_produced title yc cache world now =
        ⟨entry.is_produced, .cached, cache, 0, some entry⟩) := by
  have hget : get_cached_result title cache now =
      if CACHE_EXPIRY_DAYS < now - t then none else some entry := by
    simp only [get_cached_result, hfind, hts]
  refine ⟨?_, ?_, ?_⟩
  · rw [hget]
    by_cases hexp : CACHE_EXPIRY_DAYS < now - t
    · rw [if_pos hexp]
      constructor
      · intro h; exact absurd h (by simp)
      · intro h; exact absurd hexp (not_lt.mpr h)
    · rw [if_neg hexp]
      constructor
      · intro _; exact le_of_not_lt hexp
      · intro _; rfl
  · intro hexp
    have hnone : get_cached_result title cache now = none := by
      rw [hget, if_pos hexp]
    exact ⟨hnone, fun yc world => check_calls_pos title yc cache world now hnone⟩
  · intro hfresh yc world
    have hsome : get_cached_result title cache now = some entry := by
      rw [hget, if_neg (by linarith)]
    unfold check_if_produced
    rw [hsome]

/-- A produced cache entry 0 days old, keyed under `"juno"`. -/
def junoEntry : CacheEntry :=
  ⟨true, some 7, some "Juno".data, some "2011-04-01".data,
    some "Released".data, some 0, .high⟩

/-- Witness for C6: the entry is expired at 31 days and served at 29 days
with no external call. -/
theorem C6_witness :
    get_cached_result "Juno".data [("juno".data, junoEntry)] 31 = none ∧
    check_if_produced "Juno".data none [("juno".data, junoEntry)]
        worldSearchFails 29 =
      ⟨true, .cached, [("juno".data, junoEntry)], 0, some junoEntry⟩ := by
  constructor
  · exact ((C6_cache_ttl "Juno".data [("juno".data, junoEntry)] 31 0 junoEntry
      (by decide) rfl).2.1 (by norm_num [CACHE_EXPIRY_DAYS])).1
  · exact (C6_cache_ttl "Juno".data [("juno".data, junoEntry)] 29 0 junoEntry
      (by decide) rfl).2.2 (by norm_num [CACHE_EXPIRY_DAYS]) none worldSearchFails

/-- Claim C7: a search returning zero results caches a negative entry with
`is_produced = false`, `confidence = high` and `checked_at = now`, returns
`is_produced = false` immediately (one external call, no details calls), and
a second call for the same title within the TTL is served from the cache
with zero additional network calls. -/
theorem C7_zero_results_cached (title : List Char) (yc yc2 : Option Int)
    (cache : Cache) (world world2 : ExternalWorld) (now now2 : ℚ)
    (hmiss : get_cached_result title cache now = none)
    (hzero : world.search = .ok [])
    (hfresh : now2 - now ≤ CACHE_EXPIRY_DAYS) :
    check_if_produced title yc cache world now =
      ⟨false, .noResultsNotProduced,
        cacheInsert (normalize_title title)
          ⟨false, none, none, none, none, some now, .high⟩ cache,
        1, some ⟨false, none, none, none, none, some now, .high⟩⟩ ∧
    check_if_produced title yc2
        (cacheInsert (normalize_title title)
          ⟨false, none, none, none, none, some now, .high⟩ cache)
        world2 now2 =
      ⟨false, .cached,
        cacheInsert (normalize_title title)
          ⟨false, none, none, none, none, some now, .high⟩ cache,
        0, some ⟨false, none, none, none, none, some now, .high⟩⟩ := by
  constructor
  · unfold check_if_produced
    rw [hmiss, hzero]
    simp
  · have hget2 : get_cached_result title
        (cacheInsert (normalize_title title)
          ⟨false, none, none, none, none, some now, .high⟩ cache) now2 =
        some ⟨false, none, none, none, none, some now, .high⟩ := by
      simp only [get_cached_result, lookupEntry_cacheInsert_self]
      rw [if_neg (by simp only [CACHE_EXPIRY_DAYS] at hfresh ⊢; linarith)]
    unfold check_if_produced
    rw [hget2]

/-- Witness for C7 at a concrete empty-result world. -/
theorem C7_witness :
    check_if_produced "Hanna".data none [] worldNoResults 0 =
      ⟨false, .noResultsNotProduced,
        [("hanna".data, ⟨false, none, none, none, none, some 0, .high⟩)],
        1, some ⟨false, none, none, none, none, some 0, .high⟩⟩ ∧
    check_if_produced "Hanna".data none
        [("hanna".data, ⟨false, none, none, none, none, some 0, .high⟩)]
        worldNoResults 29 =
      ⟨false, .cached,
        [("hanna".data, ⟨false, none, none, none, none, some 0, .high⟩)],
        0, some ⟨false, none, none, none, none, some 0, .high⟩⟩ := by
  have h := C7_zero_results_cached "Hanna".data none none [] worldNoResults
    worldNoResults 0 29 (by decide) rfl (by norm_num [CACHE_EXPIRY_DAYS])
  have hkey : normalize_title "Hanna".data = "hanna".data := by decide
  rw [hkey] at h
  exact ⟨h.1, h.2⟩

/-- A scan over candidates that are all unmatched or year-filtered finds
nothing and fetches no details. -/
theorem scanCandidates_all_skipped (title : List Char) (yc : Option Int)
    (world : ExternalWorld) :
    ∀ results : List SearchResult,
      (∀ r ∈ results, is_title_match title r.title = false ∨
        yearSkip yc r.release_date = true) →
      scanCandidates title yc world results = (none, 0)
  | [], _ => rfl
  | r :: rest, hall => by
    have hrec := scanCandidates_all_skipped title yc world rest
      (fun x hx => hall x (List.mem_cons_of_mem _ hx))
    rw [scanCandidates.eq_def]
    by_cases hm : is_title_match title r.title = false
    · simp [hm, hrec]
    · have hm2 : is_title_match title r.title = true := by
        cases h : is_title_match title r.title
        · exact absurd h hm
        · rfl
      have hskip : yearSkip yc r.release_date = true := by
        rcases hall r (by simp) with h | h
        · exact absurd h hm
        · exact h
      simp [hm2, hskip, hrec]

/-- Claim C8: with a supplied (nonzero) `year_context`, every candidate
whose parsed release year is strictly below the context year is skipped even
when its title matches; when every candidate is skipped or unmatched the
result is `is_produced = false`, cached with `confidence = medium` (one
search call, zero details calls). -/
theorem C8_year_context_filter (title : List Char) (y : Int) (cache : Cache)
    (world : ExternalWorld) (now : ℚ) (results : List SearchResult)
    (hy : y ≠ 0)
    (hmiss : get_cached_result title cache now = none)
    (hs : world.search = .ok results) (hne : results ≠ [])
    (hall : ∀ r ∈ results, is_title_match title r.title = false ∨
      (r.release_date ≠ [] ∧
        ∃ ry, parseReleaseYear r.release_date = some ry ∧ ry < y)) :
    check_if_produced title (some y) cache world now =
      ⟨false, .noMatchNotProduced results.length,
        cacheInsert (normalize_title title)
          ⟨false, none, none, none, none, some now, .medium⟩ cache,
        1, some ⟨false, none, none, none, none, some now, .medium⟩⟩ := by
  have hskip : ∀ r ∈ results, is_title_match title r.title = false ∨
      yearSkip (some y) r.release_date = true := by
    intro r hr
    rcases hall r hr with h | ⟨hrd, ry, hparse, hlt⟩
    · exact Or.inl h
    · right
      simp [yearSkip, hy, hrd, hparse, hlt]
  have hscan := scanCandidates_all_skipped title (some y) world results hskip
  unfold check_if_produced
  rw [hmiss, hs]
  simp [hne, hscan]

/-- Witness for C8: the claim's own example — a matching candidate released
`2003-05-01` under a year context of 2006 is excluded and the verdict is a
medium-confidence negative. -/
theorem C8_witness :
    check_if_produced "Hanna".data (some 2006) []
        ⟨.ok [⟨3, "Hanna".data, "2003-05-01".data⟩], detailsAllFail⟩ 0 =
      ⟨false, .noMatchNotProduced 1,
        [("hanna".data, ⟨false, none, none, none, none, some 0, .medium⟩)],
        1, some ⟨false, none, none, none, none, some 0, .medium⟩⟩ := by
  have h := C8_year_context_filter "Hanna".data 2006 []
    ⟨.ok [⟨3, "Hanna".data, "2003-05-01".data⟩], detailsAllFail⟩ 0
    [⟨3, "Hanna".data, "2003-05-01".data⟩] (by decide) (by decide) rfl (by simp)
    (by
      intro r hr
      simp only [List.mem_singleton] at hr
      subst hr
      exact Or.inr ⟨by decide, 2003, by decide, by decide⟩)
  have hkey : normalize_title "Hanna".data = "hanna".data := by decide
  rw [hkey] at h
  simpa using h

/-- Claim C10: a cache entry whose `checked_at` field is absent or empty
(falsy) is returned as valid regardless of its age — it never expires and
always short-circuits the external lookup with the stored verdict and zero
network calls. -/
theorem C10_missing_checked_at (title : List Char) (cache : Cache)
    (entry : CacheEntry)
    (hfind : lookupEntry (normalize_title title) cache = some entry)
    (hts : entry.checked_at = none) :
    ∀ (now : ℚ) (yc : Option Int) (world : ExternalWorld),
      get_cached_result title cache now = some entry ∧
      check_if_produced title yc cache world now =
        ⟨entry.is_produced, .cached, cache, 0, some entry⟩ := by
  intro now yc world
  have hget : get_cached_result title cache now = some entry := by
    simp only [get_cached_result, hfind, hts]
  refine ⟨hget, ?_⟩
  unfold check_if_produced
  rw [hget]

/-- A negative cache entry with no `checked_at` timestamp. -/
def staleEntry : CacheEntry := ⟨false, none, none, none, none, none, .medium⟩

/-- Witness for C10 at a very distant `now` (a million days later). -/
theorem C10_witness :
    get_cached_result "Juno".data [("juno".data, staleEntry)] 1000000 =
      some staleEntry ∧
    check_if_produced "Juno".data none [("juno".data, staleEntry)]
        worldSearchFails 1000000 =
      ⟨false, .cached, [("juno".data, staleEntry)], 0, some staleEntry⟩ :=
  C10_missing_checked_at "Juno".data [("juno".data, staleEntry)] staleEntry
    (by decide) rfl 1000000 none worldSearchFails

/-- Unfolding equation: the last allowed attempt returns its own outcome. -/
theorem tenacityGo_zero {α : Type} (attempt : Nat → Except NetError α) (k : Nat) :
    tenacityGo attempt k 0 = (attempt k, 1) := rfl

/-- Unfolding equation: an attempt with retries left. -/
theorem tenacityGo_succ {α : Type} (attempt : Nat → Except NetError α) (k left : Nat) :
    tenacityGo attempt k (left + 1) =
      match attempt k with
      | .ok v => (.ok v, 1)
      | .error e =>
        if isRetryable e then
          match tenacityGo attempt (k + 1) left with
          | (res, n) => (res, n + 1)
        else (.error e, 1) := rfl

/-- Claim C9, counterexample: a persistent HTTP 404 — a permanent client
error the claim says is never retried — is classified retryable by
`RETRYABLE_EXCEPTIONS` (which contains `httpx.HTTPStatusError` wholesale),
so the call is attempted 3 times, not 1. -/
theorem C9_counterexample :
    isRetryable (.httpStatusError 404) = true ∧
    run_with_retry (fun _ => (.error (.httpStatusError 404) : Except NetError Unit)) =
      (.error (.httpStatusError 404), 3) ∧
    (3 : Nat) ≠ 1 := by
  refine ⟨rfl, rfl, by decide⟩

/-- Claim C9 (amended): the retry wrapper makes up to 3 attempts and retries
exactly on the `RETRYABLE_EXCEPTIONS` classes — connection failures,
timeouts, and *every* `HTTPStatusError` regardless of status code (4xx
client errors such as 401/404 included); only exceptions outside those
classes surface immediately after a single attempt; a success returns at
once, and on the final failed attempt the last error propagates to the
caller (`reraise=True`) rather than being swallowed. -/
theorem C9_retry_policy {α : Type} (attempt : Nat → Except NetError α) :
    (∀ v, attempt 0 = .ok v → run_with_retry attempt = (.ok v, 1)) ∧
    (∀ e, attempt 0 = .error e → isRetryable e = false →
      run_with_retry attempt = (.error e, 1)) ∧
    (∀ e0 e1 e2, attempt 0 = .error e0 → attempt 1 = .error e1 →
      attempt 2 = .error e2 → isRetryable e0 = true → isRetryable e1 = true →
      run_with_retry attempt = (.error e2, 3)) ∧
    (∀ code, isRetryable (.httpStatusError code) = true) ∧
    isRetryable .otherError = false := by
  refine ⟨?_, ?_, ?_, fun _ => rfl, rfl⟩
  · intro v h
    show tenacityGo attempt 0 2 = (.ok v, 1)
    rw [show (2 : Nat) = 1 + 1 from rfl, tenacityGo_succ, h]
  · intro e h hnr
    show tenacityGo attempt 0 2 = (.error e, 1)
    rw [show (2 : Nat) = 1 + 1 from rfl, tenacityGo_succ, h]
    simp [hnr]
  · intro e0 e1 e2 h0 h1 h2 hr0 hr1
    show tenacityGo attempt 0 2 = (.error e2, 3)
    rw [show (2 : Nat) = 1 + 1 from rfl, tenacityGo_succ, h0]
    simp only [hr0, if_true]
    rw [show (1 : Nat) = 0 + 1 from rfl, tenacityGo_succ, h1]
    simp only [hr1, if_true]
    rw [tenacityGo_zero, h2]

/-- Witness for C9: a call failing twice with a 503 and succeeding on the
third attempt, a call failing persistently, and a non-retryable failure. -/
theorem C9_witness :
    run_with_retry (fun _ => (.ok 42 : Except NetError Nat)) = (.ok 42, 1) ∧
    run_with_retry (fun _ => (.error .otherError : Except NetError Nat)) =
      (.error .otherError, 1) ∧
    run_with_retry (fun k =>
      (if k = 0 then .error .connectError
        else if k = 1 then .error (.httpStatusError 503)
        else .error .timeoutError : Except NetError Nat)) =
      (.error .timeoutError, 3) := by
  refine ⟨?_, ?_, ?_⟩
  · exact (C9_retry_policy (fun _ => (.ok 42 : Except NetError Nat))).1 42 rfl
  · exact (C9_retry_policy (fun _ => (.error .otherError : Except NetError Nat))).2.1
      .otherError rfl rfl
  · exact (C9_retry_policy (fun k =>
      (if k = 0 then .error .connectError
        else if k = 1 then .error (.httpStatusError 503)
        else .error .timeoutError : Except NetError Nat))).2.2.1
      .connectError (.httpStatusError 503) .timeoutError rfl rfl rfl rfl rfl
